import Mathlib

/-!
Shallow embedding of the PyOpenWorm graph-persistence core:
`PyOpenWorm/command.py` (serialization of contexts, the index file, the bulk
loader, the `_BatchAddGraph` batch writer, `POW.init` cleanup) and
`PyOpenWorm/datasource_loader.py` (the sandboxed `DataSourceDirLoader`).

Python strings are modelled as `List Char`; fallible Python code returns
`Except PyErr`.  The filesystem, where needed, is passed explicitly as
predicates or association lists.
-/

namespace PyOpenWorm

/-- Python strings, modelled as lists of characters. -/
abbrev Str := List Char

/-- Shorthand turning a Lean string literal into the `Str` model. -/
def strLit (s : String) : Str := s.toList

/-- The Python exceptions the modelled code can raise.  `fuelExhausted` is an
artifact of bounding the (source-unbounded) collision retry loop; it is proved
unreachable in the situations the claims cover. -/
inductive PyErr where
  | typeError
  | valueError
  | zeroDivisionError
  | ioError
  | ntParseError
  | fuelExhausted
  deriving DecidableEq

/-- `os.path.isabs`: a POSIX path is absolute iff it starts with a slash. -/
def isabs (s : Str) : Bool :=
  match s with
  | [] => false
  | c :: _ => c = '/'

/-- `os.path.join(a, b)` for POSIX paths (the two-argument uses in the source):
an absolute second component wins, otherwise a separator is inserted unless
`a` is empty or already ends in one. -/
def pthJoin (a b : Str) : Str :=
  if isabs b then b
  else if a = [] ∨ a.getLast? = some '/' then a ++ b
  else a ++ '/' :: b

/-- `str.split(sep)` with an explicit one-character separator, as in Python:
every occurrence separates, empty fields are kept. -/
def splitCh (sep : Char) : List Char → List (List Char)
  | [] => [[]]
  | c :: rest =>
    if c = sep then [] :: splitCh sep rest
    else
      match splitCh sep rest with
      | [] => [[c]]
      | w :: ws => (c :: w) :: ws

/-- One step of lexical path normalization: empty and `.` components vanish,
`..` removes the previous component (and is a no-op at the root). -/
def normStep (acc : List Str) (comp : Str) : List Str :=
  if comp = [] ∨ comp = ['.'] then acc
  else if comp = ['.', '.'] then acc.dropLast
  else acc ++ [comp]

/-- Join path components with slashes. -/
def joinComps : List Str → Str
  | [] => []
  | [c] => c
  | c :: rest => c ++ '/' :: joinComps rest

/-- `os.path.realpath` on a symlink-free filesystem whose working directory is
the root: make the path absolute and resolve `.` and `..` lexically. -/
def realpath (s : Str) : Str :=
  '/' :: joinComps ((splitCh '/' s).foldl normStep [])

/-- `str.strip()`: drop leading and trailing whitespace. -/
def stripWS (s : Str) : Str :=
  ((s.dropWhile Char.isWhitespace).reverse.dropWhile Char.isWhitespace).reverse

/-- The four failure reasons `DataSourceDirLoader.__call__` reports through
`LoadFailed`. -/
inductive LoadFailReason where
  | emptyResult
  | sandboxEscape
  | nonexistent
  | notADirectory
  deriving DecidableEq

/-- Errors escaping `DataSourceDirLoader.__call__`: either a `LoadFailed` with
its reason, or the `AttributeError` from reading an unset
`self.base_directory`. -/
inductive CallErr where
  | loadFailed (reason : LoadFailReason)
  | attributeError
  deriving DecidableEq

/-- `DataSourceDirLoader`: `base_directory` is `none` when the attribute was
never assigned (constructor argument absent, `None`, or a falsy string). -/
structure DataSourceDirLoader where
  base_directory : Option Str

/-- `DataSourceDirLoader.__init__(base_directory=None)`: the attribute is set,
to `realpath(base_directory)`, only when the argument is truthy. -/
def DataSourceDirLoader.create (bd : Option Str) : DataSourceDirLoader :=
  { base_directory :=
      match bd with
      | some b => if b = [] then none else some (realpath b)
      | none => none }

/-- `DataSourceDirLoader.__call__`, after the sub-class `load` returned the
path `s`.  `ex` and `isd` model `os.path.exists` / `os.path.isdir` on the
ambient filesystem.  Reading `self.base_directory` when it was never assigned
raises `AttributeError` (the read happens, on every path with `s` non-empty,
before any check that could raise a further `LoadFailed`). -/
def DataSourceDirLoader.call (self : DataSourceDirLoader)
    (ex isd : Str → Bool) (s : Str) : Except CallErr Str :=
  if s = [] then .error (.loadFailed .emptyResult)
  else
    match self.base_directory with
    | none => .error .attributeError
    | some base =>
      if base.isPrefixOf (realpath (if isabs s then s else pthJoin base s)) = false then
        .error (.loadFailed .sandboxEscape)
      else if ex (realpath (if isabs s then s else pthJoin base s)) = false then
        .error (.loadFailed .nonexistent)
      else if isd (realpath (if isabs s then s else pthJoin base s)) = false then
        .error (.loadFailed .notADirectory)
      else .ok (realpath (if isabs s then s else pthJoin base s))


/-- RDF triples: (subject, predicate, object), each an opaque term. -/
abbrev Triple := Str × Str × Str

/-- A quad as built by `_BatchAddGraph.add`: `triple + (graph,)`; the fourth
component records the target context. -/
abbrev Quad := Triple × Str

/-- `_BatchAddGraph` from `command.py`: wraps a graph, turning `add` calls
into batched `addN` calls.  `addNCalls` models the target graph: the list of
bulk inserts it has received, in order. -/
structure BatchAddGraph where
  ctx : Str
  addNCalls : List (List Quad)
  batchsize : Nat
  batch : List Quad
  count : Nat

/-- `_BatchAddGraph.reset`. -/
def BatchAddGraph.reset (st : BatchAddGraph) : BatchAddGraph :=
  { st with batch := [], count := 0 }

/-- `_BatchAddGraph.__init__(graph, batchsize)` (which ends in `self.reset()`). -/
def BatchAddGraph.new (ctx : Str) (batchsize : Nat) : BatchAddGraph :=
  BatchAddGraph.reset
    { ctx := ctx, addNCalls := [], batchsize := batchsize, batch := [], count := 0 }

/-- `self.graph.addN(quads)`: the graph receives one bulk insert. -/
def BatchAddGraph.addN (st : BatchAddGraph) (quads : List Quad) : BatchAddGraph :=
  { st with addNCalls := st.addNCalls ++ [quads] }

/-- `_BatchAddGraph.add(triple)`.  Python evaluates `self.count > 0 and
self.count % self.batchsize == 0`: the modulus (and hence the
`ZeroDivisionError` for batchsize 0) is only reached when `count > 0`.  On a
flush the whole buffer goes out in a single `addN` call and is cleared, then
the new quad is appended and the running count incremented. -/
def BatchAddGraph.add (st : BatchAddGraph) (t : Triple) : Except PyErr BatchAddGraph :=
  if 0 < st.count then
    if st.batchsize = 0 then .error .zeroDivisionError
    else if st.count % st.batchsize = 0 then
      .ok { st with addNCalls := st.addNCalls ++ [st.batch], batch := [(t, st.ctx)], count := st.count + 1 }
    else .ok { st with batch := st.batch ++ [(t, st.ctx)], count := st.count + 1 }
  else .ok { st with batch := st.batch ++ [(t, st.ctx)], count := st.count + 1 }

/-- Pure version of `add` for a non-zero batch size (helper for proofs). -/
def BatchAddGraph.addP (st : BatchAddGraph) (t : Triple) : BatchAddGraph :=
  if 0 < st.count ∧ st.count % st.batchsize = 0 then
    { st with addNCalls := st.addNCalls ++ [st.batch], batch := [(t, st.ctx)], count := st.count + 1 }
  else { st with batch := st.batch ++ [(t, st.ctx)], count := st.count + 1 }

/-- `_BatchAddGraph.__enter__` (another `reset`). -/
def BatchAddGraph.enter (st : BatchAddGraph) : BatchAddGraph := st.reset

/-- `_BatchAddGraph.__exit__(*exc)`: flush the remaining buffer via `addN`
only when no exception is in flight. -/
def BatchAddGraph.exit (st : BatchAddGraph) (excRaised : Bool) : BatchAddGraph :=
  if excRaised then st else st.addN st.batch

/-- Feed a list of triples through `add`, stopping at the first error. -/
def BatchAddGraph.addAll : BatchAddGraph → List Triple → Except PyErr BatchAddGraph
  | st, [] => .ok st
  | st, t :: ts =>
    match st.add t with
    | .error e => .error e
    | .ok st' => st'.addAll ts

/-- A full `with _BatchAddGraph(graph, batchsize) as g:` scope feeding `ts`,
up to (but not including) `__exit__`. -/
def runBatchScope (ctx : Str) (batchsize : Nat) (ts : List Triple) :
    Except PyErr BatchAddGraph :=
  ((BatchAddGraph.new ctx batchsize).enter).addAll ts

/-- Number of completed flushes after `k` calls to `add` with batch size `B`:
the flush happens on the add *after* the count reaches a positive multiple
of `B`. -/
def flushCnt (B k : Nat) : Nat := if k = 0 then 0 else (k - 1) / B

/-- All quads that have passed through the writer, flushed or still
buffered. -/
def BatchAddGraph.delivered (st : BatchAddGraph) : List Quad :=
  st.addNCalls.join ++ st.batch

/-- Shape invariant of the batch writer after `k` adds with batch size `B`. -/
def BatchInv (B k : Nat) (st : BatchAddGraph) : Prop :=
  st.batchsize = B ∧ st.count = k ∧
  (∀ l ∈ st.addNCalls, l.length = B) ∧
  st.addNCalls.length = flushCnt B k ∧
  st.batch.length = k - B * flushCnt B k ∧
  B * flushCnt B k ≤ k

/-- One line of the graphs index file, as read by `_load_all_graphs`:
`fname, ctx = l.strip().split(' ')`.  The split is on *every* space (Python
`split` with an explicit separator), and the tuple unpacking raises
`ValueError` unless the split yields exactly two fields. -/
def parseIndexLine (l : Str) : Except PyErr (Str × Str) :=
  match splitCh ' ' (stripWS l) with
  | [fname, ctx] => .ok (fname, ctx)
  | _ => .error .valueError

/-- Modelled from the spec words "splits the line on the first space", for
comparison with the source behavior: split at the FIRST space only. -/
def splitFirstSp : Str → Option (Str × Str)
  | [] => none
  | c :: rest =>
    if c = ' ' then some ([], rest)
    else (splitFirstSp rest).map (fun p => (c :: p.1, p.2))

/-- The per-entry body of the `_load_all_graphs` loop: parse the index line,
open the referenced triple file under `<powdir>/graphs`, and stream its
triples through a `_BatchAddGraph(dest.get_context(ctx), batchsize=4000)`
scope.  `files` models the graphs directory: `none` is a missing file
(`IOError` from `open`), `some (.error e)` a file whose nt parse raises
mid-stream (the scope then exits exceptionally, discarding its buffer, and
the error propagates before `g.count` is read), `some (.ok ts)` a file whose
nt content parses to the triples `ts` (the rdflib nt serializer/parser pair
is an external collaborator, modelled as the identity on triple lists).
Returns the quads the destination graph received and the `g.count` value
added to `triples_read`. -/
def processEntry (files : Str → Option (Except PyErr (List Triple))) (l : Str) :
    Except PyErr (List Quad × Nat) :=
  match parseIndexLine l with
  | .error e => .error e
  | .ok (fname, ctx) =>
    match files fname with
    | none => .error .ioError
    | some (.error e) => .error e
    | some (.ok ts) =>
      match runBatchScope ctx 4000 ts with
      | .error e => .error e
      | .ok g => .ok ((g.exit false).addNCalls.join, g.count)

/-- The loop inside `with transaction.manager:` in `_load_all_graphs`,
accumulating the quads inserted into the destination store and the running
`triples_read` counter. -/
def loadLoop (files : Str → Option (Except PyErr (List Triple))) :
    List Str → List Quad → Nat → Except PyErr (List Quad × Nat)
  | [], quads, n => .ok (quads, n)
  | l :: rest, quads, n =>
    match processEntry files l with
    | .error e => .error e
    | .ok (q, cnt) => loadLoop files rest (quads ++ q) (n + cnt)

/-- `POW._load_all_graphs`: when no index file exists the load is a no-op
(count 0); otherwise every index line is processed inside the single
`transaction.manager` scope.  Returns the quads inserted by the transaction
body and the triples-read count, or the first error raised. -/
def loadAllGraphs (idx : Option (List Str))
    (files : Str → Option (Except PyErr (List Triple))) :
    Except PyErr (List Quad × Nat) :=
  match idx with
  | none => .ok ([], 0)
  | some lines => loadLoop files lines [] 0

/-- The observable effect of `_load_all_graphs` on a destination store
already holding `pre`: `transaction.manager` — the external transaction
scope wrapping the whole loop — commits the quads inserted by the body only
when the body completes without raising; on an exception the transaction
aborts, the store keeps its pre-call state, and the error propagates. -/
def loadAllFinal (pre : List Quad) (idx : Option (List Str))
    (files : Str → Option (Except PyErr (List Triple))) :
    List Quad × Except PyErr Nat :=
  match loadAllGraphs idx files with
  | .ok (q, n) => (pre ++ q, .ok n)
  | .error e => (pre, .error e)

/-- `shutil.rmtree(p)`: every path equal to `p` or under `p/` disappears
from the filesystem, modelled as an existence predicate on paths. -/
def rmtree (fs : Str → Bool) (p : Str) : Str → Bool :=
  fun q => if q = p ∨ (p ++ ['/']).isPrefixOf q then false else fs q

/-- `POW._ensure_powdir`: `makedirs(powdir)` when it does not exist. -/
def ensurePowdir (fs : Str → Bool) (p : Str) : Str → Bool :=
  if fs p then fs else fun q => if q = p then true else fs q

/-- `POW._ensure_no_powdir`: `rmtree(powdir)` whenever it exists. -/
def ensureNoPowdir (fs : Str → Bool) (p : Str) : Str → Bool :=
  if fs p then rmtree fs p else fs

/-- `POW.init`: ensure the working directory exists, run the body (config
file creation, store and repository setup — external effects folded into
`body`, which returns the filesystem at completion, or at the instant its
exception was raised, together with that exception), and on any exception
call `_ensure_no_powdir` before re-raising. -/
def POW.init (fs0 : Str → Bool) (powdir : Str)
    (body : (Str → Bool) → (Str → Bool) × Option PyErr) :
    (Str → Bool) × Option PyErr :=
  match body (ensurePowdir fs0 powdir) with
  | (fs2, none) => (fs2, none)
  | (fs2, some e) => (ensureNoPowdir fs2 powdir, some e)

/-- Python values as far as the `+` expressions of `_serialize_graphs` are
concerned. -/
inductive PyVal where
  | str (s : Str)
  | int (n : Int)

/-- Python `+` on such values: concatenation of two strings, addition of two
ints, and `TypeError` for a mix. -/
def pyAdd : PyVal → PyVal → Except PyErr PyVal
  | .str a, .str b => .ok (.str (a ++ b))
  | .int a, .int b => .ok (.int (a + b))
  | _, _ => .error .typeError

/-- The collision file name `hs + '-' + i + '.nt'` from `_serialize_graphs`,
where the loop counter `i` is an int (the source concatenates it to a string
without `str(i)`). -/
def mkSuffixedName (hs : Str) (i : Int) : Except PyErr Str :=
  match pyAdd (.str hs) (.str (strLit "-")) with
  | .error e => .error e
  | .ok a =>
    match pyAdd a (.int i) with
    | .error e => .error e
    | .ok b =>
      match pyAdd b (.str (strLit ".nt")) with
      | .error e => .error e
      | .ok (.str s) => .ok s
      | .ok (.int _) => .error .typeError

/-- The `while exists(fname)` retry loop choosing a context file name.  The
fuel bound stands in for the source's unbounded loop; it is irrelevant in
practice because on every iteration the body's first expression
(`hs + '-' + i`) raises `TypeError`. -/
def chooseFnameLoop (ex : Str → Bool) (gb hs : Str) :
    Nat → Str → Int → Except PyErr Str
  | 0, fname, _ => if ex fname then .error .fuelExhausted else .ok fname
  | Nat.succ fuel, fname, i =>
    if ex fname then
      match mkSuffixedName hs i with
      | .error e => .error e
      | .ok s => chooseFnameLoop ex gb hs fuel (pthJoin gb s) (i + 1)
    else .ok fname

/-- File-name choice for one context: start from `pth_join(gb, hs + '.nt')`
and retry with numeric suffixes while the name exists. -/
def chooseFname (ex : Str → Bool) (gb hs : Str) : Except PyErr Str :=
  chooseFnameLoop ex gb hs 1000000 (pthJoin gb (hs ++ strLit ".nt")) 1

/-- `os.path.relpath(p, gb)` in the only form the source uses: `p` was
produced by `pth_join(gb, b)` with `gb` non-empty, not slash-terminated, and
`b` relative — recover `b` by dropping the base and the separator. -/
def relpathFrom (gb p : Str) : Str := p.drop (gb.length + 1)

/-- Insertion into a sorted list (model of Python `sorted`, which this
development uses only through its permutation property). -/
def insertLe {α : Type} (le : α → α → Bool) (x : α) : List α → List α
  | [] => [x]
  | y :: ys => if le x y then x :: y :: ys else y :: insertLe le x ys

/-- Insertion sort. -/
def insSort {α : Type} (le : α → α → Bool) : List α → List α
  | [] => []
  | x :: xs => insertLe le x (insSort le xs)

/-- Lexicographic comparison of strings (Python `str` ordering). -/
def leStr : Str → Str → Bool
  | [], _ => true
  | _ :: _, [] => false
  | a :: as, b :: bs => if a = b then leStr as bs else decide (a < b)

/-- Tuple comparison for index entries. -/
def lePair (p q : Str × Str) : Bool :=
  if p.1 = q.1 then leStr p.2 q.2 else leStr p.1 q.1

/-- Tuple comparison for triples. -/
def leTriple (t u : Triple) : Bool :=
  if t.1 = u.1 then lePair t.2 u.2 else leStr t.1 u.1

/-- `sorted(x)`: the canonical serialization order of a context's triples. -/
def sortTriples : List Triple → List Triple := insSort leTriple

/-- `sorted(ctx_data)`. -/
def sortPairs : List (Str × Str) → List (Str × Str) := insSort lePair

/-- The `for x in g.contexts()` loop of `_serialize_graphs`, carrying the
files written so far (full path ↦ canonically sorted triples, which is what
`exists(fname)` consults in the freshly re-created graphs directory) and the
`ctx_data` accumulator; at the end the index is the sorted `ctx_data`. -/
def serializeLoop (h : Str → Str) (gb : Str) :
    List (Str × List Triple) → List (Str × List Triple) → List (Str × Str) →
    Except PyErr (List (Str × List Triple) × List (Str × Str))
  | [], files, ctxData => .ok (files, sortPairs ctxData)
  | (ident, ts) :: rest, files, ctxData =>
    match chooseFname (fun f => files.any (fun p => decide (p.1 = f))) gb (h ident) with
    | .error e => .error e
    | .ok fname =>
      serializeLoop h gb rest (files ++ [(fname, sortTriples ts)])
        (ctxData ++ [(relpathFrom gb fname, ident)])

/-- `POW._serialize_graphs` over a store (a list of contexts: identifier ↦
triples), writing into the freshly re-created graphs directory `gb`; `h`
models the hex SHA-256 digest of the encoded identifier.  Yields the written
triple files and the sorted index entries (relative file name, identifier).
The rdflib nt serializer, fed `sorted(x)`, is an external collaborator
modelled as writing the sorted triple list itself. -/
def serializeGraphs (h : Str → Str) (gb : Str)
    (store : List (Str × List Triple)) :
    Except PyErr (List (Str × List Triple) × List (Str × Str)) :=
  serializeLoop h gb store [] []

/-- The index lines written by `print(*l, file=index_file)`, one per sorted
`ctx_data` entry. -/
def indexLines (ctxData : List (Str × Str)) : List Str :=
  ctxData.map (fun p => p.1 ++ ' ' :: p.2)

/-- First-match association lookup (model of opening a written file by its
path). -/
def lookupStr {α : Type} : List (Str × α) → Str → Option α
  | [], _ => none
  | p :: rest, k => if p.1 = k then some p.2 else lookupStr rest k

/-- The graphs directory as `_load_all_graphs` sees it after a serialization
pass: opening `pth_join(gb, fname)` finds the file written under that full
path, whose nt parse returns its triples. -/
def filesOf (gb : Str) (files : List (Str × List Triple)) :
    Str → Option (Except PyErr (List Triple)) :=
  fun f => (lookupStr files (pthJoin gb f)).map Except.ok

/-- Closed form of the files a collision-free serialization pass writes. -/
def serFiles (h : Str → Str) (gb : Str) (store : List (Str × List Triple)) :
    List (Str × List Triple) :=
  store.map (fun p => (pthJoin gb (h p.1 ++ strLit ".nt"), sortTriples p.2))

/-- Closed form of the raw (unsorted) `ctx_data` of such a pass. -/
def rawIndex (h : Str → Str) (store : List (Str × List Triple)) :
    List (Str × Str) :=
  store.map (fun p => (h p.1 ++ strLit ".nt", p.1))

/-- Closed form of the written index. -/
def serIndex (h : Str → Str) (store : List (Str × List Triple)) :
    List (Str × Str) :=
  sortPairs (rawIndex h store)

/-- Closed form of the quads a bulk load of that index inserts into a fresh
destination store. -/
def loadedQuads (h : Str → Str) (store : List (Str × List Triple)) :
    List Quad :=
  ((serIndex h store).map (fun e =>
    (sortTriples ((lookupStr store e.2).getD [])).map (fun t => (t, e.2)))).join

end PyOpenWorm

namespace PyOpenWorm

/-- **C1, counterexample.**  The claim says resolution must raise a
sandbox-escape `LoadFailed` unless the resolved path extends the base
directory by a separator or equals it, and that `resolve(base, "../escape")`
fails with a sandbox-escape error for *any* base.  With base `/a/esc` the
loader result `../escape` canonicalizes to `/a/escape`, which is neither
`/a/esc` nor under `/a/esc/`, yet `__call__` succeeds: the source checks a
plain string prefix (`rpath.startswith(self.base_directory)`), so no error is
raised. -/
theorem sandbox_plain_prefix_cex :
    (DataSourceDirLoader.create (some (strLit "/a/esc"))).call
        (fun _ => true) (fun _ => true) (strLit "../escape")
      = .ok (strLit "/a/escape")
    ∧ (strLit "/a/esc" ++ ['/']).isPrefixOf (strLit "/a/escape") = false
    ∧ strLit "/a/escape" ≠ strLit "/a/esc" := by
  refine ⟨rfl, rfl, ?_⟩
  decide

/-- **C1, amended.**  For a truthy base directory and a non-empty loader
result, `__call__` raises the sandbox-escape `LoadFailed` iff the
canonicalized resolved path does not have the canonicalized base directory as
a *plain string prefix* — no separator is required after the prefix, so
sibling paths such as `/a/escape` under base `/a/esc` are accepted. -/
theorem sandbox_escape_iff_not_plain_prefix (bd s : Str) (ex isd : Str → Bool)
    (hbd : bd ≠ []) (hs : s ≠ []) :
    ((DataSourceDirLoader.create (some bd)).call ex isd s
        = .error (.loadFailed .sandboxEscape))
      ↔ (realpath bd).isPrefixOf
          (realpath (if isabs s then s else pthJoin (realpath bd) s)) = false := by
  have h1 : DataSourceDirLoader.create (some bd) = ⟨some (realpath bd)⟩ := by
    simp [DataSourceDirLoader.create, hbd]
  rw [h1]
  unfold DataSourceDirLoader.call
  rw [if_neg hs]
  cases hpre : (realpath bd).isPrefixOf
      (realpath (if isabs s then s else pthJoin (realpath bd) s)) with
  | false => simp [hpre]
  | true =>
    simp only [hpre]
    constructor
    · intro h
      exfalso
      all_goals try split at h
      all_goals try split at h
      all_goals try split at h
      all_goals try split at h
      all_goals simp_all
    · intro h
      exact absurd h (by simp)

/-- **C1, witness for the amended theorem** at base `/a/b` and loader result
`../escape`: the resolved path `/a/escape` does not have `/a/b` as a prefix,
so the sandbox-escape error is raised. -/
theorem sandbox_escape_iff_not_plain_prefix_w :
    (strLit "/a/b" ≠ ([] : Str)) ∧ (strLit "../escape" ≠ ([] : Str))
    ∧ (((DataSourceDirLoader.create (some (strLit "/a/b"))).call
          (fun _ => true) (fun _ => true) (strLit "../escape")
        = .error (.loadFailed .sandboxEscape))
      ↔ (realpath (strLit "/a/b")).isPrefixOf
          (realpath (if isabs (strLit "../escape") then strLit "../escape"
                     else pthJoin (realpath (strLit "/a/b")) (strLit "../escape"))) = false) :=
  ⟨by decide, by decide,
   sandbox_escape_iff_not_plain_prefix (strLit "/a/b") (strLit "../escape")
     (fun _ => true) (fun _ => true) (by decide) (by decide)⟩

/-- **C9.**  If the loader was constructed with `base_directory` absent,
`None`, or a falsy (empty) string, the attribute `self.base_directory` is
never assigned, and every call whose `load` returns a non-empty path raises
`AttributeError` — never `LoadFailed`. -/
theorem unset_base_directory_attribute_error (bd : Option Str)
    (hbd : ∀ b, bd = some b → b = []) (ex isd : Str → Bool) (s : Str)
    (hs : s ≠ []) :
    (DataSourceDirLoader.create bd).call ex isd s = .error .attributeError := by
  have hbase : (DataSourceDirLoader.create bd).base_directory = none := by
    unfold DataSourceDirLoader.create
    cases bd with
    | none => rfl
    | some b => simp [hbd b rfl]
  unfold DataSourceDirLoader.call
  rw [hbase]
  simp [hs]

theorem addP_batchsize (st : BatchAddGraph) (t : Triple) :
    (st.addP t).batchsize = st.batchsize := by
  unfold BatchAddGraph.addP
  split <;> rfl

theorem addP_ctx (st : BatchAddGraph) (t : Triple) : (st.addP t).ctx = st.ctx := by
  unfold BatchAddGraph.addP
  split <;> rfl

theorem add_eq_addP (st : BatchAddGraph) (t : Triple) (hB : st.batchsize ≠ 0) :
    st.add t = .ok (st.addP t) := by
  unfold BatchAddGraph.add BatchAddGraph.addP
  by_cases h0 : 0 < st.count
  · by_cases hm : st.count % st.batchsize = 0 <;> simp [h0, hm, hB]
  · have : ¬ (0 < st.count ∧ st.count % st.batchsize = 0) := fun h => h0 h.1
    simp [h0, this]

theorem foldl_addP_batchsize (ts : List Triple) (st : BatchAddGraph) :
    (ts.foldl BatchAddGraph.addP st).batchsize = st.batchsize := by
  induction ts generalizing st with
  | nil => rfl
  | cons t ts ih => simp [List.foldl_cons, ih, addP_batchsize]

theorem foldl_addP_ctx (ts : List Triple) (st : BatchAddGraph) :
    (ts.foldl BatchAddGraph.addP st).ctx = st.ctx := by
  induction ts generalizing st with
  | nil => rfl
  | cons t ts ih => simp [List.foldl_cons, ih, addP_ctx]

theorem addAll_eq_foldl (ts : List Triple) (st : BatchAddGraph)
    (hB : st.batchsize ≠ 0) :
    st.addAll ts = .ok (ts.foldl BatchAddGraph.addP st) := by
  induction ts generalizing st with
  | nil => rfl
  | cons t ts ih =>
    unfold BatchAddGraph.addAll
    rw [add_eq_addP st t hB]
    exact ih (st.addP t) (by rw [addP_batchsize]; exact hB)

theorem delivered_addP (st : BatchAddGraph) (t : Triple) :
    (st.addP t).delivered = st.delivered ++ [(t, st.ctx)] := by
  unfold BatchAddGraph.addP BatchAddGraph.delivered
  split <;> simp

theorem delivered_foldl (ts : List Triple) (st : BatchAddGraph) :
    (ts.foldl BatchAddGraph.addP st).delivered
      = st.delivered ++ ts.map (fun t => (t, st.ctx)) := by
  induction ts generalizing st with
  | nil => simp
  | cons t ts ih =>
    simp only [List.foldl_cons, List.map_cons]
    rw [ih, delivered_addP, addP_ctx]
    simp

theorem div_pred_of_mod_ne (k B : Nat) (hB : 0 < B) (hk : 0 < k)
    (hm : k % B ≠ 0) : (k - 1) / B = k / B := by
  have hk1 : k - 1 + 1 = k := Nat.succ_pred_eq_of_pos hk
  have hdvd : ¬ B ∣ k := fun hd => hm (Nat.dvd_iff_mod_eq_zero.mp hd)
  have h2 := Nat.succ_div (k - 1) B
  rw [hk1] at h2
  rw [h2, if_neg hdvd]
  simp

theorem div_pred_of_mod_eq (k B : Nat) (hB : 0 < B) (hk : 0 < k)
    (hm : k % B = 0) : k / B = (k - 1) / B + 1 := by
  have hk1 : k - 1 + 1 = k := Nat.succ_pred_eq_of_pos hk
  have hdvd : B ∣ k := Nat.dvd_of_mod_eq_zero hm
  have h2 := Nat.succ_div (k - 1) B
  rw [hk1] at h2
  rw [h2, if_pos hdvd]

theorem batchInv_step (B k : Nat) (hB : 1 ≤ B) (st : BatchAddGraph)
    (t : Triple) (h : BatchInv B k st) : BatchInv B (k + 1) (st.addP t) := by
  obtain ⟨hsz, hcnt, hall, hlen, hbl, hle⟩ := h
  by_cases hfl : 0 < st.count ∧ st.count % st.batchsize = 0
  · have hk0 : 0 < k := by rw [← hcnt]; exact hfl.1
    have hmod : k % B = 0 := by rw [← hcnt, ← hsz]; exact hfl.2
    have hdvd : B ∣ k := Nat.dvd_of_mod_eq_zero hmod
    have hBk : B * (k / B) = k := Nat.mul_div_cancel' hdvd
    have hq : 0 < k / B := by
      rcases Nat.eq_zero_or_pos (k / B) with h | h
      · rw [h, Nat.mul_zero] at hBk; omega
      · exact h
    have hfc : flushCnt B k = k / B - 1 := by
      unfold flushCnt
      rw [if_neg (by omega)]
      have := div_pred_of_mod_eq k B (by omega) hk0 hmod
      omega
    have hfc' : flushCnt B (k + 1) = k / B := by
      unfold flushCnt
      rw [if_neg (by omega)]
      simp
    have hx : B * (k / B) = B * (k / B - 1) + B := by
      have h1 : k / B - 1 + 1 = k / B := by omega
      calc B * (k / B) = B * (k / B - 1 + 1) := by rw [h1]
        _ = B * (k / B - 1) + B := by ring
    have hBk' : B ≤ k := Nat.le_of_dvd hk0 hdvd
    have hbatch : st.batch.length = B := by
      rw [hbl, hfc]
      omega
    unfold BatchAddGraph.addP
    rw [if_pos hfl]
    refine ⟨hsz, by simp [hcnt], ?_, ?_, ?_, ?_⟩
    · intro l hl
      rcases List.mem_append.mp hl with h | h
      · exact hall l h
      · simp only [List.mem_singleton] at h
        rw [h]; exact hbatch
    · have hlen2 : (st.addNCalls ++ [st.batch]).length = st.addNCalls.length + 1 := by
        simp
      rw [hlen2, hlen, hfc, hfc']
      omega
    · have hlen3 : ([(t, st.ctx)] : List Quad).length = 1 := rfl
      rw [hlen3, hfc']
      omega
    · rw [hfc']
      omega
  · have hnofl : ¬ (0 < k ∧ k % B = 0) := by
      rw [← hcnt, ← hsz]; exact hfl
    have hfc : flushCnt B (k + 1) = flushCnt B k := by
      rcases Nat.eq_zero_or_pos k with hk0 | hk0
      · subst hk0; unfold flushCnt; simp
      · have hmod : k % B ≠ 0 := fun h => hnofl ⟨hk0, h⟩
        unfold flushCnt
        rw [if_neg (by omega), if_neg (by omega)]
        simp only [Nat.add_sub_cancel]
        exact (div_pred_of_mod_ne k B (by omega) hk0 hmod).symm
    unfold BatchAddGraph.addP
    rw [if_neg hfl]
    refine ⟨hsz, by simp [hcnt], hall, by rw [hfc]; exact hlen, ?_, ?_⟩
    · have hlen4 : (st.batch ++ [(t, st.ctx)]).length = st.batch.length + 1 := by
        simp
      rw [hlen4, hbl, hfc]
      omega
    · rw [hfc]
      omega

theorem batchInv_foldl (B : Nat) (hB : 1 ≤ B) (ts : List Triple) :
    ∀ (k : Nat) (st : BatchAddGraph), BatchInv B k st →
      BatchInv B (k + ts.length) (ts.foldl BatchAddGraph.addP st) := by
  induction ts with
  | nil => intro k st h; simpa using h
  | cons t ts ih =>
    intro k st h
    have := ih (k + 1) (st.addP t) (batchInv_step B k hB st t h)
    simpa [Nat.add_assoc, Nat.add_comm 1 ts.length] using this

theorem batchInv_start (ctx : Str) (B : Nat) :
    BatchInv B 0 ((BatchAddGraph.new ctx B).enter) := by
  refine ⟨rfl, rfl, ?_, rfl, rfl, by simp [flushCnt]⟩
  intro l hl
  simp [BatchAddGraph.new, BatchAddGraph.enter, BatchAddGraph.reset] at hl

theorem runBatchScope_eq (ctx : Str) (B : Nat) (hB : 1 ≤ B) (ts : List Triple) :
    runBatchScope ctx B ts
      = .ok (ts.foldl BatchAddGraph.addP ((BatchAddGraph.new ctx B).enter)) := by
  apply addAll_eq_foldl
  show B ≠ 0
  omega

theorem runBatchScope_delivered (ctx : Str) (B : Nat) (hB : 1 ≤ B)
    (ts : List Triple) :
    runBatchScope ctx B ts = .ok (ts.foldl BatchAddGraph.addP
        ((BatchAddGraph.new ctx B).enter))
    ∧ (ts.foldl BatchAddGraph.addP ((BatchAddGraph.new ctx B).enter)).delivered
        = ts.map (fun t => (t, ctx)) := by
  refine ⟨runBatchScope_eq ctx B hB ts, ?_⟩
  rw [delivered_foldl]
  simp [BatchAddGraph.new, BatchAddGraph.enter, BatchAddGraph.reset,
    BatchAddGraph.delivered]

theorem join_length_of_uniform (B : Nat) (L : List (List Quad))
    (h : ∀ l ∈ L, l.length = B) : L.join.length = B * L.length := by
  induction L with
  | nil => simp
  | cons l L ih =>
    simp only [List.join_cons, List.length_append, List.length_cons]
    rw [h l (by simp), ih (fun x hx => h x (by simp [hx]))]
    ring

theorem exit_false_join (st : BatchAddGraph) :
    (st.exit false).addNCalls.join = st.delivered := by
  rw [BatchAddGraph.exit, if_neg (by simp), BatchAddGraph.addN]
  simp [BatchAddGraph.delivered]

theorem exit_true_join (st : BatchAddGraph) :
    (st.exit true).addNCalls.join = st.addNCalls.join := by
  rw [BatchAddGraph.exit, if_pos rfl]

/-- **C9, witness**: constructed with `None`, called on the non-empty loader
result `data/x`, the call raises `AttributeError`. -/
theorem unset_base_directory_attribute_error_w :
    (∀ b, (none : Option Str) = some b → b = []) ∧ (strLit "data/x" ≠ ([] : Str))
    ∧ (DataSourceDirLoader.create none).call (fun _ => true) (fun _ => true)
        (strLit "data/x") = .error .attributeError :=
  ⟨(fun _ h => nomatch h), by decide,
   unset_base_directory_attribute_error none (fun _ h => nomatch h)
     (fun _ => true) (fun _ => true) (strLit "data/x") (by decide)⟩

/-- **C5.**  For any sequence of triples fed through `_BatchAddGraph.add`
with any batch size `B ≥ 1`, after a normal scope exit the quads delivered to
the wrapped graph (the concatenation of all `addN` payloads) are exactly the
input triples, each tagged with the target context and in input order — in
particular the target context contains exactly the set of input triples,
independently of `B`. -/
theorem batch_scope_delivers_all_triples (ctx : Str) (B : Nat) (hB : 1 ≤ B)
    (ts : List Triple) :
    (runBatchScope ctx B ts).map (fun g => (g.exit false).addNCalls.join)
      = .ok (ts.map (fun t => (t, ctx))) := by
  obtain ⟨hrun, hdel⟩ := runBatchScope_delivered ctx B hB ts
  rw [hrun]
  simp only [Except.map]
  rw [exit_false_join, hdel]

/-- **C5, witness** at batch size 7 and two concrete triples. -/
theorem batch_scope_delivers_all_triples_w :
    1 ≤ 7
    ∧ (runBatchScope (strLit "http://c") 7
          [(strLit "s1", strLit "p1", strLit "o1"),
           (strLit "s2", strLit "p2", strLit "o2")]).map
        (fun g => (g.exit false).addNCalls.join)
      = .ok [((strLit "s1", strLit "p1", strLit "o1"), strLit "http://c"),
             ((strLit "s2", strLit "p2", strLit "o2"), strLit "http://c")] :=
  ⟨by decide,
   batch_scope_delivers_all_triples (strLit "http://c") 7 (by decide)
     [(strLit "s1", strLit "p1", strLit "o1"),
      (strLit "s2", strLit "p2", strLit "o2")]⟩

/-- **C6, counterexample.**  The claim says that at the moment the buffered
count reaches `B` the buffer is flushed via `addN` and cleared.  With
`B = 1`, after one `add` the buffered count has reached `B`, yet no `addN`
call has happened (`addNCalls = []`) and the buffer still holds the triple:
the flush only happens on the *next* `add` (or at scope exit). -/
theorem flush_deferred_to_next_add_cex :
    (runBatchScope (strLit "c") 1 [(strLit "s", strLit "p", strLit "o")]).map
        (fun g => (g.addNCalls, g.batch, g.count))
      = .ok ([], [((strLit "s", strLit "p", strLit "o"), strLit "c")], 1) := rfl

/-- **C6, amended.**  With batch size `B ≥ 1`, a flush happens on the add
*after* the running count has reached a positive multiple of `B`: after `M`
adds the graph has received `flushCnt B M = (M-1)/B` (0 for `M = 0`) bulk
`addN` calls, each carrying exactly `B` quads (the full buffer, which is
cleared), the buffer holds the remaining `M - B·flushCnt B M` quads, and the
running total count equals `M`. -/
theorem flush_on_following_add (ctx : Str) (B : Nat) (hB : 1 ≤ B)
    (ts : List Triple) :
    (runBatchScope ctx B ts).map
        (fun g => (g.count, g.addNCalls.length,
          g.addNCalls.all (fun l => l.length == B), g.batch.length))
      = .ok (ts.length, flushCnt B ts.length, true,
          ts.length - B * flushCnt B ts.length) := by
  rw [runBatchScope_eq ctx B hB ts]
  have hinv := batchInv_foldl B hB ts 0 _ (batchInv_start ctx B)
  obtain ⟨hsz, hcnt, hall, hlen, hbl, hle⟩ := hinv
  rw [Nat.zero_add] at hcnt hlen hbl
  have hallb : (ts.foldl BatchAddGraph.addP
      ((BatchAddGraph.new ctx B).enter)).addNCalls.all (fun l => l.length == B)
      = true := by
    rw [List.all_eq_true]
    intro l hl
    simpa using hall l hl
  simp only [Except.map]
  rw [hcnt, hlen, hbl, hallb]

/-- **C6 amended, witness** at batch size 2 and three triples: exactly one
flush of exactly 2 quads has happened, one quad is still buffered, and the
count is 3. -/
theorem flush_on_following_add_w :
    1 ≤ 2
    ∧ (runBatchScope (strLit "c") 2
          [(strLit "s1", strLit "p", strLit "o"),
           (strLit "s2", strLit "p", strLit "o"),
           (strLit "s3", strLit "p", strLit "o")]).map
        (fun g => (g.count, g.addNCalls.length,
          g.addNCalls.all (fun l => l.length == 2), g.batch.length))
      = .ok (3, flushCnt 2 3, true, 3 - 2 * flushCnt 2 3) :=
  ⟨by decide,
   flush_on_following_add (strLit "c") 2 (by decide)
     [(strLit "s1", strLit "p", strLit "o"),
      (strLit "s2", strLit "p", strLit "o"),
      (strLit "s3", strLit "p", strLit "o")]⟩

/-- **C7.**  On normal exit of a `_BatchAddGraph` scope every remaining
buffered triple is flushed (the graph ends up with every input quad); on exit
caused by an exception no further `addN` happens, so the graph keeps only the
quads of completed flushes — the first `B · flushCnt B M` of them — and the
still-buffered remainder is discarded. -/
theorem exit_flushes_or_discards (ctx : Str) (B : Nat) (hB : 1 ≤ B)
    (ts : List Triple) :
    (runBatchScope ctx B ts).map
        (fun g => ((g.exit false).addNCalls.join, (g.exit true).addNCalls.join))
      = .ok (ts.map (fun t => (t, ctx)),
          (ts.map (fun t => (t, ctx))).take (B * flushCnt B ts.length)) := by
  obtain ⟨hrun, hdel⟩ := runBatchScope_delivered ctx B hB ts
  have hinv := batchInv_foldl B hB ts 0 _ (batchInv_start ctx B)
  obtain ⟨hsz, hcnt, hall, hlen, hbl, hle⟩ := hinv
  rw [Nat.zero_add] at hlen
  have hjl : (ts.foldl BatchAddGraph.addP
      ((BatchAddGraph.new ctx B).enter)).addNCalls.join.length
      = B * flushCnt B ts.length := by
    rw [join_length_of_uniform B _ hall, hlen]
  have hdel' : (ts.foldl BatchAddGraph.addP
      ((BatchAddGraph.new ctx B).enter)).addNCalls.join
      ++ (ts.foldl BatchAddGraph.addP ((BatchAddGraph.new ctx B).enter)).batch
      = ts.map (fun t => (t, ctx)) := by
    rw [← hdel]; rfl
  have h2 : (ts.foldl BatchAddGraph.addP
      ((BatchAddGraph.new ctx B).enter)).addNCalls.join
      = (ts.map (fun t => (t, ctx))).take (B * flushCnt B ts.length) := by
    rw [← hdel', ← hjl, List.take_left]
  rw [hrun]
  simp only [Except.map]
  rw [exit_false_join, exit_true_join, hdel, h2]

/-- **C7, witness** at batch size 2 and three triples: normal exit delivers
all three quads; exceptional exit leaves only the single completed flush of
two quads, the third being discarded. -/
theorem exit_flushes_or_discards_w :
    1 ≤ 2
    ∧ (runBatchScope (strLit "c") 2
          [(strLit "s1", strLit "p", strLit "o"),
           (strLit "s2", strLit "p", strLit "o"),
           (strLit "s3", strLit "p", strLit "o")]).map
        (fun g => ((g.exit false).addNCalls.join, (g.exit true).addNCalls.join))
      = .ok ([(strLit "s1", strLit "p", strLit "o"),
              (strLit "s2", strLit "p", strLit "o"),
              (strLit "s3", strLit "p", strLit "o")].map (fun t => (t, strLit "c")),
          ([(strLit "s1", strLit "p", strLit "o"),
            (strLit "s2", strLit "p", strLit "o"),
            (strLit "s3", strLit "p", strLit "o")].map
              (fun t => (t, strLit "c"))).take (2 * flushCnt 2 3)) :=
  ⟨by decide,
   exit_flushes_or_discards (strLit "c") 2 (by decide)
     [(strLit "s1", strLit "p", strLit "o"),
      (strLit "s2", strLit "p", strLit "o"),
      (strLit "s3", strLit "p", strLit "o")]⟩

theorem splitCh_not_mem (sep : Char) (l : List Char) (h : sep ∉ l) :
    splitCh sep l = [l] := by
  induction l with
  | nil => rfl
  | cons c rest ih =>
    have hc : ¬ c = sep := fun hc => h (by simp [hc])
    have hrest : sep ∉ rest := fun hr => h (by simp [hr])
    simp only [splitCh, if_neg hc, ih hrest]

theorem splitCh_append_sep (sep : Char) (f rest : List Char) (hf : sep ∉ f) :
    splitCh sep (f ++ sep :: rest) = f :: splitCh sep rest := by
  induction f with
  | nil => simp [splitCh]
  | cons c fs ih =>
    have hc : ¬ c = sep := fun hc => hf (by simp [hc])
    have hfs : sep ∉ fs := fun hr => hf (by simp [hr])
    simp only [List.cons_append, splitCh, if_neg hc]
    rw [show fs.append (sep :: rest) = fs ++ sep :: rest from rfl, ih hfs]

theorem stripWS_eq_self_of (l : Str)
    (h1 : l.dropWhile Char.isWhitespace = l)
    (h2 : l.reverse.dropWhile Char.isWhitespace = l.reverse) :
    stripWS l = l := by
  unfold stripWS
  rw [h1, h2, List.reverse_reverse]

theorem stripWS_sep_line (f c : Str) (hf1 : f ≠ []) (hc1 : c ≠ [])
    (hf : ∀ ch ∈ f, ¬ ch.isWhitespace) (hc : ∀ ch ∈ c, ¬ ch.isWhitespace) :
    stripWS (f ++ ' ' :: c) = f ++ ' ' :: c := by
  apply stripWS_eq_self_of
  · cases f with
    | nil => exact absurd rfl hf1
    | cons a fs =>
      simp only [List.cons_append]
      exact List.dropWhile_cons_of_neg (hf a (by simp))
  · have hcr : c.reverse ≠ [] := by
      simpa using hc1
    cases hr : c.reverse with
    | nil => exact absurd hr hcr
    | cons b bs =>
      have hb : b ∈ c := by
        rw [← List.mem_reverse, hr]
        simp
      rw [List.reverse_append, List.reverse_cons, hr]
      simp only [List.cons_append, List.append_assoc]
      exact List.dropWhile_cons_of_neg (hc b hb)

/-- **C8, counterexample.**  The claim says parsing splits the line on the
*first* space.  On the line `a.nt http://x y` a first-space split yields the
pair `(a.nt, http://x y)`, but the source splits on every space
(`l.strip().split(' ')` gives three fields) and the two-name unpacking raises
`ValueError`, aborting the load. -/
theorem index_line_split_all_spaces_cex :
    parseIndexLine (strLit "a.nt http://x y") = .error PyErr.valueError
    ∧ splitFirstSp (strLit "a.nt http://x y")
        = some (strLit "a.nt", strLit "http://x y") := ⟨rfl, rfl⟩

/-- **C8, amended.**  Index-line parsing splits the stripped line on every
space and requires exactly two fields: a line made of two non-empty,
whitespace-free names joined by a single space parses into exactly that pair,
and a line whose stripped form contains no space at all (a missing separator)
is a hard `ValueError`, never skipped.  (Lines with two or more spaces are
also hard errors, per the counterexample.) -/
theorem index_line_parse (f c : Str) (hf1 : f ≠ []) (hc1 : c ≠ [])
    (hf : ∀ ch ∈ f, ¬ ch.isWhitespace) (hc : ∀ ch ∈ c, ¬ ch.isWhitespace) :
    parseIndexLine (f ++ ' ' :: c) = .ok (f, c)
    ∧ ∀ l : Str, ' ' ∉ stripWS l → parseIndexLine l = .error PyErr.valueError := by
  constructor
  · have hfsp : ' ' ∉ f := fun hm => hf ' ' hm (by decide)
    have hcsp : ' ' ∉ c := fun hm => hc ' ' hm (by decide)
    unfold parseIndexLine
    rw [stripWS_sep_line f c hf1 hc1 hf hc, splitCh_append_sep ' ' f c hfsp,
      splitCh_not_mem ' ' c hcsp]
  · intro l hl
    unfold parseIndexLine
    rw [splitCh_not_mem ' ' (stripWS l) hl]

/-- **C8 amended, witness**: the well-formed line `ab.nt http://ctx` parses
into the pair, and the separator-free line `garbage` is a `ValueError`. -/
theorem index_line_parse_w :
    (strLit "ab.nt" ≠ ([] : Str)) ∧ (strLit "http://ctx" ≠ ([] : Str))
    ∧ parseIndexLine (strLit "ab.nt" ++ ' ' :: strLit "http://ctx")
        = .ok (strLit "ab.nt", strLit "http://ctx")
    ∧ parseIndexLine (strLit "garbage") = .error PyErr.valueError :=
  ⟨by decide, by decide,
   (index_line_parse (strLit "ab.nt") (strLit "http://ctx") (by decide) (by decide)
      (by decide) (by decide)).1,
   (index_line_parse (strLit "ab.nt") (strLit "http://ctx") (by decide) (by decide)
      (by decide) (by decide)).2 (strLit "garbage") (by decide)⟩

theorem loadLoop_error (files : Str → Option (Except PyErr (List Triple)))
    (lines : List Str) (l : Str) (e : PyErr) (hl : l ∈ lines)
    (he : processEntry files l = .error e) :
    ∀ (q0 : List Quad) (n0 : Nat), ∃ e2, loadLoop files lines q0 n0 = .error e2 := by
  induction lines with
  | nil => exact absurd hl (by simp)
  | cons hd rest ih =>
    intro q0 n0
    cases hpe : processEntry files hd with
    | error e3 => exact ⟨e3, by simp [loadLoop, hpe]⟩
    | ok p =>
      rcases List.mem_cons.mp hl with h1 | hmem
      · rw [h1] at he
        exact absurd (he.symm.trans hpe) (by simp)
      · obtain ⟨e2, he2⟩ := ih hmem (q0 ++ p.1) (n0 + p.2)
        exact ⟨e2, by simp [loadLoop, hpe]; exact he2⟩

/-- **C4.**  The whole `_load_all_graphs` loop runs inside a single
`transaction.manager` scope: if processing any index entry raises (missing
referenced file, malformed triple file, malformed index line), the entire
load aborts with that error and the destination store equals its pre-call
state — including the contexts of entries that had already been processed
successfully before the failing one. -/
theorem load_all_atomic (pre : List Quad) (lines : List Str)
    (files : Str → Option (Except PyErr (List Triple))) (l : Str) (e : PyErr)
    (hl : l ∈ lines) (he : processEntry files l = .error e) :
    (loadAllFinal pre (some lines) files).1 = pre
    ∧ ∀ n, (loadAllFinal pre (some lines) files).2 ≠ .ok n := by
  obtain ⟨e2, he2⟩ := loadLoop_error files lines l e hl he [] 0
  have hg : loadAllGraphs (some lines) files = .error e2 := by
    unfold loadAllGraphs
    exact he2
  unfold loadAllFinal
  rw [hg]
  refine ⟨rfl, ?_⟩
  intro n h
  have h2 : (Except.error e2 : Except PyErr Nat) = Except.ok n := h
  cases h2

/-- **C4, witness**: an index with one valid entry (`a.nt`, present) followed
by one entry whose file is missing; the pre-populated store is unchanged
after the failed load, even though the first entry was loadable. -/
theorem load_all_atomic_w :
    (strLit "missing.nt http://c2")
        ∈ [strLit "a.nt http://c1", strLit "missing.nt http://c2"]
    ∧ processEntry
        (fun f => if f = strLit "a.nt"
          then some (.ok [((strLit "s", strLit "p", strLit "o") : Triple)])
          else none)
        (strLit "missing.nt http://c2") = .error PyErr.ioError
    ∧ (loadAllFinal [((strLit "x", strLit "y", strLit "z"), strLit "http://old")]
        (some [strLit "a.nt http://c1", strLit "missing.nt http://c2"])
        (fun f => if f = strLit "a.nt"
          then some (.ok [((strLit "s", strLit "p", strLit "o") : Triple)])
          else none)).1
      = [((strLit "x", strLit "y", strLit "z"), strLit "http://old")] :=
  ⟨by decide, rfl,
   (load_all_atomic [((strLit "x", strLit "y", strLit "z"), strLit "http://old")]
      [strLit "a.nt http://c1", strLit "missing.nt http://c2"]
      (fun f => if f = strLit "a.nt"
        then some (.ok [((strLit "s", strLit "p", strLit "o") : Triple)])
        else none)
      (strLit "missing.nt http://c2") PyErr.ioError (by decide) rfl).1⟩

/-- **C10.**  If `POW.init` raises after the powdir already existed before
the call, the error handler `_ensure_no_powdir` deletes the entire powdir
tree — every path at or under the powdir, including contents that existed
before the call, not only state created by the failed call. -/
theorem init_failure_deletes_preexisting (fs0 : Str → Bool) (powdir : Str)
    (body : (Str → Bool) → (Str → Bool) × Option PyErr) (e : PyErr) (q : Str)
    (hbody : (body (ensurePowdir fs0 powdir)).2 = some e)
    (hkeep : (body (ensurePowdir fs0 powdir)).1 powdir = true)
    (hq : q = powdir ∨ (powdir ++ ['/']).isPrefixOf q = true) :
    (POW.init fs0 powdir body).1 q = false := by
  unfold POW.init
  rcases hb : body (ensurePowdir fs0 powdir) with ⟨fs2, oe⟩
  rw [hb] at hbody hkeep
  simp only at hbody hkeep
  cases oe with
  | none => cases hbody
  | some e2 =>
    simp only
    unfold ensureNoPowdir
    rw [if_pos hkeep]
    unfold rmtree
    rw [if_pos hq]

/-- **C10, witness**: `/w/.pow` and its pre-existing content
`/w/.pow/precious` exist before the call; the body raises without touching
the filesystem; after `init` the pre-existing content is gone. -/
theorem init_failure_deletes_preexisting_w :
    ((fun fs => (fs, some PyErr.ioError)) (ensurePowdir
        (fun s => decide (s = strLit "/w/.pow") || decide (s = strLit "/w/.pow/precious")
          || decide (s = strLit "/w"))
        (strLit "/w/.pow"))).2 = some PyErr.ioError
    ∧ ((fun fs => (fs, some PyErr.ioError)) (ensurePowdir
        (fun s => decide (s = strLit "/w/.pow") || decide (s = strLit "/w/.pow/precious")
          || decide (s = strLit "/w"))
        (strLit "/w/.pow"))).1 (strLit "/w/.pow") = true
    ∧ (strLit "/w/.pow/precious" = strLit "/w/.pow"
        ∨ (strLit "/w/.pow" ++ ['/']).isPrefixOf (strLit "/w/.pow/precious") = true)
    ∧ (fun s => decide (s = strLit "/w/.pow") || decide (s = strLit "/w/.pow/precious")
          || decide (s = strLit "/w")) (strLit "/w/.pow/precious") = true
    ∧ (POW.init
        (fun s => decide (s = strLit "/w/.pow") || decide (s = strLit "/w/.pow/precious")
          || decide (s = strLit "/w"))
        (strLit "/w/.pow")
        (fun fs => (fs, some PyErr.ioError))).1 (strLit "/w/.pow/precious") = false :=
  ⟨rfl, by decide, by decide, by decide,
   init_failure_deletes_preexisting
     (fun s => decide (s = strLit "/w/.pow") || decide (s = strLit "/w/.pow/precious")
       || decide (s = strLit "/w"))
     (strLit "/w/.pow")
     (fun fs => (fs, some PyErr.ioError)) PyErr.ioError
     (strLit "/w/.pow/precious") rfl (by decide) (by decide)⟩

theorem mkSuffixedName_typeError (hs : Str) (i : Int) :
    mkSuffixedName hs i = .error PyErr.typeError := rfl

theorem chooseFnameLoop_not_ex (ex : Str → Bool) (gb hs fname : Str) (i : Int)
    (fuel : Nat) (hex : ex fname = false) :
    chooseFnameLoop ex gb hs fuel fname i = .ok fname := by
  cases fuel <;> simp [chooseFnameLoop, hex]

theorem chooseFnameLoop_ex (ex : Str → Bool) (gb hs fname : Str) (i : Int)
    (fuel : Nat) (hex : ex fname = true) :
    chooseFnameLoop ex gb hs (fuel + 1) fname i = .error PyErr.typeError := by
  simp [chooseFnameLoop, hex, mkSuffixedName_typeError]

theorem chooseFname_free (ex : Str → Bool) (gb hs : Str)
    (hex : ex (pthJoin gb (hs ++ strLit ".nt")) = false) :
    chooseFname ex gb hs = .ok (pthJoin gb (hs ++ strLit ".nt")) :=
  chooseFnameLoop_not_ex ex gb hs _ 1 1000000 hex

theorem chooseFname_collision (ex : Str → Bool) (gb hs : Str)
    (hex : ex (pthJoin gb (hs ++ strLit ".nt")) = true) :
    chooseFname ex gb hs = .error PyErr.typeError := by
  have h1 : (1000000 : Nat) = 999999 + 1 := by norm_num
  unfold chooseFname
  rw [h1]
  exact chooseFnameLoop_ex ex gb hs _ 1 999999 hex

/-- **C2 (code bug).**  When a second context's identifier digests to the
same base file name as an earlier one in the same pass, the source *intends*
to retry with `-1`, `-2`, … suffixes, but the suffix expression is
`hs + '-' + i + '.nt'` with `i` an int (missing `str(i)`), so Python raises
`TypeError` on the first collision instead of producing a suffixed name:
neither context file nor index entry is written for the colliding context
and the whole serialization pass aborts.  Evaluated here on a store of two
contexts whose identifiers digest identically. -/
theorem collision_suffix_type_error :
    serializeGraphs (fun _ => strLit "d0") (strLit "/w/graphs")
      [(strLit "http://c1", [((strLit "s", strLit "p", strLit "o") : Triple)]),
       (strLit "http://c2", [((strLit "s2", strLit "p2", strLit "o2") : Triple)])]
      = .error PyErr.typeError := by
  unfold serializeGraphs serializeLoop
  rw [chooseFname_free _ _ _ (by decide)]
  unfold serializeLoop
  rw [chooseFname_collision _ _ _ (by decide)]

theorem insertLe_perm {α : Type} (le : α → α → Bool) (x : α) (l : List α) :
    (insertLe le x l).Perm (x :: l) := by
  induction l with
  | nil => exact List.Perm.refl _
  | cons y ys ih =>
    unfold insertLe
    split
    · exact List.Perm.refl _
    · exact (List.Perm.cons y ih).trans (List.Perm.swap x y ys)

theorem insSort_perm {α : Type} (le : α → α → Bool) (l : List α) :
    (insSort le l).Perm l := by
  induction l with
  | nil => exact List.Perm.refl _
  | cons x xs ih =>
    exact (insertLe_perm le x (insSort le xs)).trans (List.Perm.cons x ih)

theorem sortTriples_mem (ts : List Triple) (t : Triple) :
    t ∈ sortTriples ts ↔ t ∈ ts :=
  (insSort_perm leTriple ts).mem_iff

theorem sortPairs_mem (l : List (Str × Str)) (e : Str × Str) :
    e ∈ sortPairs l ↔ e ∈ l :=
  (insSort_perm lePair l).mem_iff

theorem lookupStr_of_mem {α : Type} (l : List (Str × α)) (k : Str) (v : α)
    (hnd : (l.map Prod.fst).Nodup) (hmem : (k, v) ∈ l) :
    lookupStr l k = some v := by
  induction l with
  | nil => exact absurd hmem (List.not_mem_nil _)
  | cons p rest ih =>
    rw [List.map_cons] at hnd
    have hnd' := List.nodup_cons.mp hnd
    rcases List.mem_cons.mp hmem with h1 | h2
    · rw [← h1]
      simp [lookupStr]
    · have hk : k ∈ rest.map Prod.fst := by
        have hmm := List.mem_map_of_mem Prod.fst h2
        exact hmm
      have hp : ¬ p.1 = k := by
        intro he
        rw [he] at hnd'
        exact hnd'.1 hk
      simp only [lookupStr, if_neg hp]
      exact ih hnd'.2 h2

theorem assoc_unique {α : Type} (l : List (Str × α)) (k : Str) (a b : α)
    (hnd : (l.map Prod.fst).Nodup) (ha : (k, a) ∈ l) (hb : (k, b) ∈ l) :
    a = b := by
  have h1 := lookupStr_of_mem l k a hnd ha
  have h2 := lookupStr_of_mem l k b hnd hb
  have := h1.symm.trans h2
  exact Option.some.inj this

theorem isabs_suffixed (hs : Str) (h : ∀ ch ∈ hs, ch ≠ '/') :
    isabs (hs ++ strLit ".nt") = false := by
  cases hs with
  | nil => rfl
  | cons a rest =>
    have := h a (by simp)
    simp [isabs, this]

theorem pthJoin_eq (gb b : Str) (hgb1 : gb ≠ []) (hgb2 : gb.getLast? ≠ some '/')
    (hb : isabs b = false) : pthJoin gb b = gb ++ '/' :: b := by
  unfold pthJoin
  rw [if_neg (by simp [hb]), if_neg (not_or.mpr ⟨hgb1, hgb2⟩)]

theorem pthJoin_inj (gb b1 b2 : Str) (hgb1 : gb ≠ [])
    (hgb2 : gb.getLast? ≠ some '/') (h1 : isabs b1 = false)
    (h2 : isabs b2 = false) (heq : pthJoin gb b1 = pthJoin gb b2) : b1 = b2 := by
  rw [pthJoin_eq gb b1 hgb1 hgb2 h1, pthJoin_eq gb b2 hgb1 hgb2 h2] at heq
  have h3 := List.append_inj_right heq rfl
  injection h3

theorem relpathFrom_pthJoin (gb b : Str) (hgb1 : gb ≠ [])
    (hgb2 : gb.getLast? ≠ some '/') (hb : isabs b = false) :
    relpathFrom gb (pthJoin gb b) = b := by
  rw [pthJoin_eq gb b hgb1 hgb2 hb]
  unfold relpathFrom
  have h4 : gb ++ '/' :: b = (gb ++ ['/']) ++ b := by simp
  rw [h4]
  have hlen : (gb ++ ['/']).length = gb.length + 1 := by simp
  rw [← hlen, List.drop_left]

theorem nodup_key_not_in_pre (pre rest : List (Str × List Triple))
    (p : Str × List Triple) (h : ((pre ++ p :: rest).map Prod.fst).Nodup) :
    ∀ p' ∈ pre, p'.1 ≠ p.1 := by
  intro p' hp' heq
  rw [List.map_append] at h
  have hdisj := (List.nodup_append.mp h).2.2
  exact hdisj (List.mem_map_of_mem Prod.fst hp') (by simp [heq])

theorem serializeLoop_closed (h : Str → Str) (gb : Str)
    (hgb1 : gb ≠ []) (hgb2 : gb.getLast? ≠ some '/') :
    ∀ (rest pre : List (Str × List Triple)),
    (∀ p ∈ pre ++ rest, ∀ ch ∈ h p.1, ch ≠ '/') →
    (∀ p1 ∈ pre ++ rest, ∀ p2 ∈ pre ++ rest, h p1.1 = h p2.1 → p1.1 = p2.1) →
    ((pre ++ rest).map Prod.fst).Nodup →
    serializeLoop h gb rest (serFiles h gb pre) (rawIndex h pre)
      = .ok (serFiles h gb (pre ++ rest), sortPairs (rawIndex h (pre ++ rest))) := by
  intro rest
  induction rest with
  | nil =>
    intro pre _ _ _
    simp [serializeLoop]
  | cons p rest ih =>
    intro pre hslash hinj hnd
    obtain ⟨ident, ts⟩ := p
    have hcand_nabs : isabs (h ident ++ strLit ".nt") = false := by
      apply isabs_suffixed
      intro ch hch
      exact hslash (ident, ts) (by simp) ch hch
    have hex : (serFiles h gb pre).any
        (fun q => decide (q.1 = pthJoin gb (h ident ++ strLit ".nt"))) = false := by
      rw [List.any_eq_false]
      intro q hq
      simp only [decide_eq_true_eq]
      intro heq
      obtain ⟨p', hp', hq'⟩ := List.mem_map.mp hq
      have hk : pthJoin gb (h p'.1 ++ strLit ".nt")
          = pthJoin gb (h ident ++ strLit ".nt") := by
        rw [← hq'] at heq
        exact heq
      have hnabs' : isabs (h p'.1 ++ strLit ".nt") = false := by
        apply isabs_suffixed
        intro ch hch
        exact hslash p' (by simp [hp']) ch hch
      have hb := pthJoin_inj gb _ _ hgb1 hgb2 hnabs' hcand_nabs hk
      have hsame : h p'.1 = h ident := (List.append_inj' hb rfl).1
      have hid : p'.1 = ident := hinj p' (by simp [hp']) (ident, ts) (by simp) hsame
      exact nodup_key_not_in_pre pre rest (ident, ts) hnd p' hp' hid
    simp only [serializeLoop]
    rw [chooseFname_free _ _ _ hex]
    show serializeLoop h gb rest
        (serFiles h gb pre ++ [(pthJoin gb (h ident ++ strLit ".nt"), sortTriples ts)])
        (rawIndex h pre
          ++ [(relpathFrom gb (pthJoin gb (h ident ++ strLit ".nt")), ident)])
      = _
    rw [relpathFrom_pthJoin gb _ hgb1 hgb2 hcand_nabs]
    have hfiles : serFiles h gb pre
        ++ [(pthJoin gb (h ident ++ strLit ".nt"), sortTriples ts)]
        = serFiles h gb (pre ++ [(ident, ts)]) := by
      simp [serFiles]
    have hraw : rawIndex h pre ++ [(h ident ++ strLit ".nt", ident)]
        = rawIndex h (pre ++ [(ident, ts)]) := by
      simp [rawIndex]
    rw [hfiles, hraw]
    have hassoc : (pre ++ [(ident, ts)]) ++ rest = pre ++ (ident, ts) :: rest := by
      simp
    have h1 := ih (pre ++ [(ident, ts)]) (by rw [hassoc]; exact hslash)
      (by rw [hassoc]; exact hinj) (by rw [hassoc]; exact hnd)
    rw [hassoc] at h1
    exact h1

theorem serializeGraphs_closed (h : Str → Str) (gb : Str)
    (store : List (Str × List Triple))
    (hgb1 : gb ≠ []) (hgb2 : gb.getLast? ≠ some '/')
    (hslash : ∀ p ∈ store, ∀ ch ∈ h p.1, ch ≠ '/')
    (hinj : ∀ p1 ∈ store, ∀ p2 ∈ store, h p1.1 = h p2.1 → p1.1 = p2.1)
    (hids : (store.map Prod.fst).Nodup) :
    serializeGraphs h gb store = .ok (serFiles h gb store, serIndex h store) := by
  have h0 := serializeLoop_closed h gb hgb1 hgb2 store []
    (by intro p hp; exact hslash p (by simpa using hp))
    (by intro p1 hp1 p2 hp2; exact hinj p1 (by simpa using hp1) p2 (by simpa using hp2))
    (by simpa using hids)
  simpa [serializeGraphs, serFiles, rawIndex, serIndex] using h0

theorem parseIndexLine_wf (f c : Str) (hf1 : f ≠ []) (hc1 : c ≠ [])
    (hf : ∀ ch ∈ f, ¬ ch.isWhitespace) (hc : ∀ ch ∈ c, ¬ ch.isWhitespace) :
    parseIndexLine (f ++ ' ' :: c) = .ok (f, c) := by
  have hfsp : ' ' ∉ f := fun hm => hf ' ' hm (by decide)
  have hcsp : ' ' ∉ c := fun hm => hc ' ' hm (by decide)
  unfold parseIndexLine
  rw [stripWS_sep_line f c hf1 hc1 hf hc, splitCh_append_sep ' ' f c hfsp,
    splitCh_not_mem ' ' c hcsp]

theorem serFiles_keys_nodup (h : Str → Str) (gb : Str)
    (store : List (Str × List Triple)) (hgb1 : gb ≠ [])
    (hgb2 : gb.getLast? ≠ some '/')
    (hslash : ∀ p ∈ store, ∀ ch ∈ h p.1, ch ≠ '/')
    (hinj : ∀ p1 ∈ store, ∀ p2 ∈ store, h p1.1 = h p2.1 → p1.1 = p2.1)
    (hids : (store.map Prod.fst).Nodup) :
    ((serFiles h gb store).map Prod.fst).Nodup := by
  have hkeys : (serFiles h gb store).map Prod.fst
      = store.map (fun p => pthJoin gb (h p.1 ++ strLit ".nt")) := by
    simp [serFiles]
  rw [hkeys]
  have hstore : store.Nodup := List.Nodup.of_map _ hids
  apply List.Nodup.map_on ?_ hstore
  intro p1 hp1 p2 hp2 heq
  have h1 : isabs (h p1.1 ++ strLit ".nt") = false := isabs_suffixed _ (hslash p1 hp1)
  have h2 : isabs (h p2.1 ++ strLit ".nt") = false := isabs_suffixed _ (hslash p2 hp2)
  have hb := pthJoin_inj gb _ _ hgb1 hgb2 h1 h2 heq
  have hsame : h p1.1 = h p2.1 := (List.append_inj' hb rfl).1
  have hkey : p1.1 = p2.1 := hinj p1 hp1 p2 hp2 hsame
  have hval : p1.2 = p2.2 := by
    apply assoc_unique store p1.1 p1.2 p2.2 hids
    · rw [Prod.mk.eta]
      exact hp1
    · rw [hkey, Prod.mk.eta]
      exact hp2
  exact Prod.ext hkey hval

theorem runBatchScope_count (ctx : Str) (B : Nat) (hB : 1 ≤ B) (ts : List Triple) :
    (ts.foldl BatchAddGraph.addP ((BatchAddGraph.new ctx B).enter)).count
      = ts.length := by
  have hinv := batchInv_foldl B hB ts 0 _ (batchInv_start ctx B)
  obtain ⟨_, hcnt, _, _, _, _⟩ := hinv
  simpa using hcnt

theorem processEntry_ser (h : Str → Str) (gb : Str)
    (store : List (Str × List Triple)) (p : Str × List Triple)
    (hgb1 : gb ≠ []) (hgb2 : gb.getLast? ≠ some '/')
    (hslash : ∀ p' ∈ store, ∀ ch ∈ h p'.1, ch ≠ '/')
    (hws : ∀ p' ∈ store, ∀ ch ∈ h p'.1, ¬ ch.isWhitespace)
    (hid : ∀ p' ∈ store, p'.1 ≠ [] ∧ ∀ ch ∈ p'.1, ¬ ch.isWhitespace)
    (hinj : ∀ p1 ∈ store, ∀ p2 ∈ store, h p1.1 = h p2.1 → p1.1 = p2.1)
    (hids : (store.map Prod.fst).Nodup) (hp : p ∈ store) :
    processEntry (filesOf gb (serFiles h gb store))
        ((h p.1 ++ strLit ".nt") ++ ' ' :: p.1)
      = .ok ((sortTriples p.2).map (fun t => (t, p.1)),
             (sortTriples p.2).length) := by
  have hfne : (h p.1 ++ strLit ".nt") ≠ [] := by
    intro hcon
    exact absurd (List.append_eq_nil.mp hcon).2 (by decide)
  have hfws : ∀ ch ∈ h p.1 ++ strLit ".nt", ¬ ch.isWhitespace := by
    intro ch hch
    rcases List.mem_append.mp hch with h1 | h1
    · exact hws p hp ch h1
    · have hnt : ∀ ch ∈ strLit ".nt", ¬ ch.isWhitespace := by decide
      exact hnt ch h1
  have hparse := parseIndexLine_wf (h p.1 ++ strLit ".nt") p.1 hfne (hid p hp).1
    hfws (hid p hp).2
  have hmemf : (pthJoin gb (h p.1 ++ strLit ".nt"), sortTriples p.2)
      ∈ serFiles h gb store := by
    unfold serFiles
    exact List.mem_map_of_mem _ hp
  have hfile : filesOf gb (serFiles h gb store) (h p.1 ++ strLit ".nt")
      = some (.ok (sortTriples p.2)) := by
    unfold filesOf
    rw [lookupStr_of_mem _ _ _
      (serFiles_keys_nodup h gb store hgb1 hgb2 hslash hinj hids) hmemf]
    rfl
  have hrun := runBatchScope_eq p.1 4000 (by omega) (sortTriples p.2)
  have hjoin : (((sortTriples p.2).foldl BatchAddGraph.addP
      ((BatchAddGraph.new p.1 4000).enter)).exit false).addNCalls.join
      = (sortTriples p.2).map (fun t => (t, p.1)) := by
    obtain ⟨_, hdel⟩ := runBatchScope_delivered p.1 4000 (by omega) (sortTriples p.2)
    rw [exit_false_join, hdel]
  have hcnt := runBatchScope_count p.1 4000 (by omega) (sortTriples p.2)
  unfold processEntry
  rw [hparse]
  show (match filesOf gb (serFiles h gb store) (h p.1 ++ strLit ".nt") with
    | none => Except.error PyErr.ioError
    | some (Except.error e) => Except.error e
    | some (Except.ok ts) =>
      match runBatchScope p.1 4000 ts with
      | Except.error e => Except.error e
      | Except.ok g => Except.ok ((g.exit false).addNCalls.join, g.count)) = _
  rw [hfile]
  show (match runBatchScope p.1 4000 (sortTriples p.2) with
    | Except.error e => Except.error e
    | Except.ok g => Except.ok ((g.exit false).addNCalls.join, g.count)) = _
  rw [hrun]
  show Except.ok
      ((((sortTriples p.2).foldl BatchAddGraph.addP
          ((BatchAddGraph.new p.1 4000).enter)).exit false).addNCalls.join,
        ((sortTriples p.2).foldl BatchAddGraph.addP
          ((BatchAddGraph.new p.1 4000).enter)).count) = _
  rw [hjoin, hcnt]

theorem loadLoop_ok_entries (files : Str → Option (Except PyErr (List Triple)))
    (F1 : Str × Str → List Quad) (F2 : Str × Str → Nat) :
    ∀ (entries : List (Str × Str)),
    (∀ e ∈ entries, processEntry files (e.1 ++ ' ' :: e.2) = .ok (F1 e, F2 e)) →
    ∀ (q0 : List Quad) (n0 : Nat),
    loadLoop files (indexLines entries) q0 n0
      = .ok (q0 ++ (entries.map F1).join, n0 + (entries.map F2).sum) := by
  intro entries
  induction entries with
  | nil =>
    intro _ q0 n0
    simp [indexLines, loadLoop]
  | cons e rest ih =>
    intro hall q0 n0
    have he := hall e (by simp)
    have hrest : ∀ e' ∈ rest,
        processEntry files (e'.1 ++ ' ' :: e'.2) = .ok (F1 e', F2 e') := by
      intro e' he'
      exact hall e' (by simp [he'])
    simp only [indexLines, List.map_cons]
    show loadLoop files ((e.1 ++ ' ' :: e.2) :: rest.map (fun p => p.1 ++ ' ' :: p.2))
        q0 n0 = _
    unfold loadLoop
    rw [he]
    show loadLoop files (rest.map (fun p => p.1 ++ ' ' :: p.2)) (q0 ++ F1 e)
        (n0 + F2 e) = _
    have hih := ih hrest (q0 ++ F1 e) (n0 + F2 e)
    unfold indexLines at hih
    rw [hih]
    simp [List.append_assoc, Nat.add_assoc]

theorem loadedQuads_mem (h : Str → Str) (store : List (Str × List Triple))
    (hids : (store.map Prod.fst).Nodup) (t : Triple) (c : Str) :
    (t, c) ∈ loadedQuads h store ↔ ∃ ts, (c, ts) ∈ store ∧ t ∈ ts := by
  unfold loadedQuads
  rw [List.mem_join]
  constructor
  · rintro ⟨l, hl, htl⟩
    obtain ⟨e, he, rfl⟩ := List.mem_map.mp hl
    obtain ⟨t', ht', heq⟩ := List.mem_map.mp htl
    injection heq with h1 h2
    subst h1
    subst h2
    have he' := (sortPairs_mem _ _).mp he
    obtain ⟨p, hp, hpe⟩ := List.mem_map.mp he'
    have he2 : e.2 = p.1 := by rw [← hpe]
    rw [he2] at ht' ⊢
    have hlk : lookupStr store p.1 = some p.2 := by
      apply lookupStr_of_mem _ _ _ hids
      rw [Prod.mk.eta]
      exact hp
    rw [hlk] at ht'
    refine ⟨p.2, ?_, ?_⟩
    · rw [Prod.mk.eta]
      exact hp
    · exact (sortTriples_mem _ _).mp ht'
  · rintro ⟨ts, hmem, hts⟩
    refine ⟨(sortTriples ((lookupStr store c).getD [])).map (fun t' => (t', c)), ?_, ?_⟩
    · have hidx : ((h c ++ strLit ".nt", c) : Str × Str) ∈ serIndex h store := by
        apply (sortPairs_mem _ _).mpr
        unfold rawIndex
        have := List.mem_map_of_mem
          (fun p : Str × List Triple => (h p.1 ++ strLit ".nt", p.1)) hmem
        simpa using this
      have := List.mem_map_of_mem
        (fun e : Str × Str =>
          (sortTriples ((lookupStr store e.2).getD [])).map (fun t' => (t', e.2)))
        hidx
      simpa using this
    · have hlk : lookupStr store c = some ts := lookupStr_of_mem _ _ _ hids hmem
      rw [hlk]
      exact List.mem_map_of_mem (fun t' => (t', c)) ((sortTriples_mem _ _).mpr hts)

/-- **C3.**  Round trip: for a store whose context identifiers are distinct,
non-empty, whitespace-free names, whose digests are whitespace- and
slash-free and collision-free over the store (a collision would instead hit
the `TypeError` of the suffix bug, see C2), and whose contexts are all
non-empty, `_serialize_graphs` succeeds, and `_load_all_graphs` over the
produced index and files fills a fresh store with exactly the same set of
context identifiers and, per context, exactly the same set of triples. -/
theorem serialize_load_round_trip (h : Str → Str) (gb : Str)
    (store : List (Str × List Triple))
    (hgb1 : gb ≠ []) (hgb2 : gb.getLast? ≠ some '/')
    (hids : (store.map Prod.fst).Nodup)
    (hinj : ∀ p1 ∈ store, ∀ p2 ∈ store, h p1.1 = h p2.1 → p1.1 = p2.1)
    (hdig : ∀ p ∈ store, ∀ ch ∈ h p.1, ¬ ch.isWhitespace ∧ ch ≠ '/')
    (hid : ∀ p ∈ store, p.1 ≠ [] ∧ ∀ ch ∈ p.1, ¬ ch.isWhitespace)
    (hne : ∀ p ∈ store, p.2 ≠ []) :
    serializeGraphs h gb store = .ok (serFiles h gb store, serIndex h store)
    ∧ loadAllFinal [] (some (indexLines (serIndex h store)))
        (filesOf gb (serFiles h gb store))
      = (loadedQuads h store, .ok (loadedQuads h store).length)
    ∧ (∀ c, (∃ q ∈ loadedQuads h store, q.2 = c) ↔ c ∈ store.map Prod.fst)
    ∧ (∀ c ts, (c, ts) ∈ store →
        ∀ t, (t, c) ∈ loadedQuads h store ↔ t ∈ ts) := by
  have hslash : ∀ p ∈ store, ∀ ch ∈ h p.1, ch ≠ '/' :=
    fun p hp ch hch => (hdig p hp ch hch).2
  have hws : ∀ p ∈ store, ∀ ch ∈ h p.1, ¬ ch.isWhitespace :=
    fun p hp ch hch => (hdig p hp ch hch).1
  have hall : ∀ e ∈ serIndex h store,
      processEntry (filesOf gb (serFiles h gb store)) (e.1 ++ ' ' :: e.2)
        = .ok ((sortTriples ((lookupStr store e.2).getD [])).map (fun t => (t, e.2)),
               (sortTriples ((lookupStr store e.2).getD [])).length) := by
    intro e he
    obtain ⟨p, hp, hpe⟩ := List.mem_map.mp ((sortPairs_mem _ _).mp he)
    rw [← hpe]
    have hlk : lookupStr store p.1 = some p.2 :=
      lookupStr_of_mem _ _ _ hids (by rw [Prod.mk.eta]; exact hp)
    show processEntry (filesOf gb (serFiles h gb store))
        ((h p.1 ++ strLit ".nt") ++ ' ' :: p.1) = _
    rw [hlk]
    show _ = Except.ok ((sortTriples p.2).map (fun t => (t, p.1)),
      (sortTriples p.2).length)
    exact processEntry_ser h gb store p hgb1 hgb2 hslash hws hid hinj hids hp
  have hload := loadLoop_ok_entries (filesOf gb (serFiles h gb store))
    (fun e => (sortTriples ((lookupStr store e.2).getD [])).map (fun t => (t, e.2)))
    (fun e => (sortTriples ((lookupStr store e.2).getD [])).length)
    (serIndex h store) hall [] 0
  rw [List.nil_append, Nat.zero_add] at hload
  have hsum : ((serIndex h store).map
      (fun e => (sortTriples ((lookupStr store e.2).getD [])).length)).sum
      = (loadedQuads h store).length := by
    unfold loadedQuads
    rw [List.length_join, List.map_map]
    have hfe : (List.length ∘ fun e : Str × Str =>
        List.map (fun t => (t, e.2)) (sortTriples ((lookupStr store e.2).getD [])))
        = fun e : Str × Str => (sortTriples ((lookupStr store e.2).getD [])).length := by
      funext e
      simp [Function.comp]
    rw [hfe]
  have hgraphs : loadAllGraphs (some (indexLines (serIndex h store)))
      (filesOf gb (serFiles h gb store))
      = .ok (loadedQuads h store, (loadedQuads h store).length) := by
    unfold loadAllGraphs
    show loadLoop (filesOf gb (serFiles h gb store))
        (indexLines (serIndex h store)) [] 0 = _
    rw [hload, hsum]
    rfl
  have hfinal : loadAllFinal [] (some (indexLines (serIndex h store)))
      (filesOf gb (serFiles h gb store))
      = (loadedQuads h store, .ok (loadedQuads h store).length) := by
    unfold loadAllFinal
    rw [hgraphs]
    rfl
  refine ⟨serializeGraphs_closed h gb store hgb1 hgb2 hslash hinj hids,
    hfinal, ?_, ?_⟩
  · intro c
    constructor
    · rintro ⟨q, hq, hq2⟩
      have hq' : (q.1, c) ∈ loadedQuads h store := by
        rw [← hq2, Prod.mk.eta]
        exact hq
      obtain ⟨ts, hmem, _⟩ := (loadedQuads_mem h store hids q.1 c).mp hq'
      exact List.mem_map_of_mem Prod.fst hmem
    · intro hc
      obtain ⟨p, hp, hpc⟩ := List.mem_map.mp hc
      obtain ⟨t, ht⟩ : ∃ t, t ∈ p.2 := by
        cases hp2 : p.2 with
        | nil => exact absurd hp2 (hne p hp)
        | cons a l => exact ⟨a, by simp [hp2]⟩
      refine ⟨(t, c), ?_, rfl⟩
      apply (loadedQuads_mem h store hids t c).mpr
      refine ⟨p.2, ?_, ht⟩
      rw [← hpc, Prod.mk.eta]
      exact hp
  · intro c ts hmem t
    constructor
    · intro hq
      obtain ⟨ts', hmem', ht'⟩ := (loadedQuads_mem h store hids t c).mp hq
      have hts : ts' = ts := assoc_unique store c ts' ts hids hmem' hmem
      rw [← hts]
      exact ht'
    · intro ht
      exact (loadedQuads_mem h store hids t c).mpr ⟨ts, hmem, ht⟩

/-- **C3, witness** at a two-context store with the identity digest (injective
on the identifiers `ca`, `cb`): serialization succeeds and the bulk load
reproduces exactly the stored quads. -/
theorem serialize_load_round_trip_w :
    (strLit "/w/g" ≠ ([] : Str))
    ∧ (strLit "/w/g").getLast? ≠ some '/'
    ∧ (([(strLit "ca", [((strLit "s1", strLit "p1", strLit "o1") : Triple)]),
         (strLit "cb", [((strLit "s2", strLit "p2", strLit "o2") : Triple),
                        ((strLit "s3", strLit "p3", strLit "o3") : Triple)])].map
          Prod.fst).Nodup)
    ∧ serializeGraphs (fun s => s) (strLit "/w/g")
        [(strLit "ca", [((strLit "s1", strLit "p1", strLit "o1") : Triple)]),
         (strLit "cb", [((strLit "s2", strLit "p2", strLit "o2") : Triple),
                        ((strLit "s3", strLit "p3", strLit "o3") : Triple)])]
      = .ok (serFiles (fun s => s) (strLit "/w/g")
            [(strLit "ca", [((strLit "s1", strLit "p1", strLit "o1") : Triple)]),
             (strLit "cb", [((strLit "s2", strLit "p2", strLit "o2") : Triple),
                            ((strLit "s3", strLit "p3", strLit "o3") : Triple)])],
          serIndex (fun s => s)
            [(strLit "ca", [((strLit "s1", strLit "p1", strLit "o1") : Triple)]),
             (strLit "cb", [((strLit "s2", strLit "p2", strLit "o2") : Triple),
                            ((strLit "s3", strLit "p3", strLit "o3") : Triple)])])
    ∧ loadAllFinal [] (some (indexLines (serIndex (fun s => s)
            [(strLit "ca", [((strLit "s1", strLit "p1", strLit "o1") : Triple)]),
             (strLit "cb", [((strLit "s2", strLit "p2", strLit "o2") : Triple),
                            ((strLit "s3", strLit "p3", strLit "o3") : Triple)])])))
        (filesOf (strLit "/w/g") (serFiles (fun s => s) (strLit "/w/g")
            [(strLit "ca", [((strLit "s1", strLit "p1", strLit "o1") : Triple)]),
             (strLit "cb", [((strLit "s2", strLit "p2", strLit "o2") : Triple),
                            ((strLit "s3", strLit "p3", strLit "o3") : Triple)])]))
      = (loadedQuads (fun s => s)
            [(strLit "ca", [((strLit "s1", strLit "p1", strLit "o1") : Triple)]),
             (strLit "cb", [((strLit "s2", strLit "p2", strLit "o2") : Triple),
                            ((strLit "s3", strLit "p3", strLit "o3") : Triple)])],
         .ok (loadedQuads (fun s => s)
            [(strLit "ca", [((strLit "s1", strLit "p1", strLit "o1") : Triple)]),
             (strLit "cb", [((strLit "s2", strLit "p2", strLit "o2") : Triple),
                            ((strLit "s3", strLit "p3", strLit "o3") : Triple)])]).length) :=
  ⟨by decide, by decide, by decide,
   (serialize_load_round_trip (fun s => s) (strLit "/w/g")
      [(strLit "ca", [((strLit "s1", strLit "p1", strLit "o1") : Triple)]),
       (strLit "cb", [((strLit "s2", strLit "p2", strLit "o2") : Triple),
                      ((strLit "s3", strLit "p3", strLit "o3") : Triple)])]
      (by decide) (by decide) (by decide) (by decide) (by decide) (by decide)
      (by decide)).1,
   (serialize_load_round_trip (fun s => s) (strLit "/w/g")
      [(strLit "ca", [((strLit "s1", strLit "p1", strLit "o1") : Triple)]),
       (strLit "cb", [((strLit "s2", strLit "p2", strLit "o2") : Triple),
                      ((strLit "s3", strLit "p3", strLit "o3") : Triple)])]
      (by decide) (by decide) (by decide) (by decide) (by decide) (by decide)
      (by decide)).2.1⟩

end PyOpenWorm
